import Mathlib

/-!
Verification development for the nurse-scheduling solver
(`src/Demo/demo/app.py`, FastAPI + CP-SAT).

The Python program builds three solving tiers: a strict CP-SAT model, a
relaxed CP-SAT model, and a greedy heuristic.  The external CP-SAT solver is
out of scope (spec §6): it is modelled as an oracle that reports one of the
statuses OPTIMAL / FEASIBLE / INFEASIBLE / MODEL_INVALID / UNKNOWN together
with a candidate variable assignment.  Every constraint the Python code adds
to a model is embedded as an executable Boolean check on such an assignment;
a "solution" of a tier is an assignment on which all of that tier's checks
hold.  The packing code (`pack_strict`, `pack_relaxed`, the heuristic
result construction) is translated directly.
-/

namespace NSP

/-- Boolean decision variables `x[(n,d,s)]`, as a function
nurse → day → shift → Bool (the CP-SAT dict is total on the cross product). -/
abbrev XFun := String → String → String → Bool

/-- `Weights` model (app.py lines 12-22), with the Python defaults. -/
structure Weights where
  understaff_penalty : Int := 50
  overtime_penalty : Int := 10
  preference_penalty_multiplier : Int := 1
  night_morning_penalty : Int := 100
  weekly_night_over_penalty : Int := 80
  weekly_overwork_penalty : Int := 60
  skill_shortage_penalty : Int := 80

/-- A validated solve request after the normalisation done at the top of
`solve` (app.py lines 136-150):
* `demand` is total on day × shift (`check_demand` guarantees an entry for
  every pair; headcounts are the non-negative integers of the spec);
* `min_total` / `max_total` are the resolved per-nurse bounds
  (`per_nurse_min` / `per_nurse_max`, defaults and the legacy
  `max_shifts_per_nurse` fallback already applied, lines 143-148);
* `avail` is the optional availability table; `none` models an absent or
  empty (falsy) dict, and an inner `none` models a missing nested key
  (`is_available`, lines 102-105);
* `prefs` is the totalised preference lookup (`get_pref_penalty`, default 0);
* `nurse_skills` is the totalised skill roster (`.get(n, []) or []`);
* `required_skills` is the totalised nested lookup
  `required_skills.get(d, {}).get(s, {}).get(skill, 0)`. -/
structure Inst where
  nurses : List String
  days : List String
  shifts : List String
  demand : String → String → Nat
  min_total : String → Int
  max_total : String → Int
  avail : Option (String → String → String → Option Nat)
  prefs : String → String → String → Int
  nurse_skills : String → List String
  required_skills : String → String → String → Nat
  week_index_by_day : Option (List (String × Nat))
  weights : Weights

/-- Candidate assignment for the strict model's variables
(`x`, `under`, `over`, app.py lines 154-156). -/
structure Sol where
  x : XFun
  under : String → String → Nat
  over : String → Nat

/-- Candidate assignment for the relaxed model's variables
(`rx`, `r_under`, `r_over` plus the soft-violation variables,
app.py lines 278-348).  `nmViol` is indexed by (nurse, adjacent-pair index),
`wnOver`/`wdOver` by (nurse, week index), `skillShort` by (day, shift). -/
structure RSol where
  x : XFun
  under : String → String → Nat
  over : String → Nat
  nmViol : String → Nat → Bool
  wnOver : String → Nat → Nat
  wdOver : String → Nat → Nat
  skillShort : String → String → Nat

/-- Output row `Assignment` (app.py lines 55-58). -/
structure Assignment where
  day : String
  shift : String
  nurse : String
deriving DecidableEq

/-- Output row `UnderstaffItem` (app.py lines 61-64). -/
structure UnderstaffItem where
  day : String
  shift : String
  missing : Nat
deriving DecidableEq

/-- Output row `NurseStats` (app.py lines 67-71). -/
structure NurseStats where
  nurse : String
  assigned_shifts : Nat
  overtime : Nat
  nights : Nat
deriving DecidableEq

/-- `SolveResponse` (app.py lines 74-80).  The free-form `details` dict
holds only solver diagnostics and messages and is not modelled. -/
structure SolveResponse where
  status : String
  objective_value : Option Int
  assignments : List Assignment
  understaffed : List UnderstaffItem
  nurse_stats : List NurseStats
deriving DecidableEq

/-- The outcome statuses of a CP-SAT `Solve` call (the external solver
collaborator of spec §6). -/
inductive CpStatus where
  | OPTIMAL
  | FEASIBLE
  | INFEASIBLE
  | MODEL_INVALID
  | UNKNOWN
deriving DecidableEq

/-- Numeric value of a Boolean CP-SAT variable. -/
def bnum (b : Bool) : Nat := if b then 1 else 0

/-- `get_pref_penalty` (app.py lines 96-99): totalised lookup already
carried by `Inst.prefs`. -/
def get_pref_penalty (inst : Inst) (n d s : String) : Int := inst.prefs n d s

/-- `is_available` (app.py lines 102-105): `True` when the whole table is
absent/empty, `True` when any nested level is missing, else the truthiness
of the stored 0/1 value. -/
def is_available (avail : Option (String → String → String → Option Nat))
    (n d s : String) : Bool :=
  match avail with
  | none => true
  | some f =>
    match f n d s with
    | none => true
    | some v => v != 0

/-- ASCII lower-casing of one character (model of Python `str.lower` on the
ASCII shift labels used by the scheduler). -/
def lowerChar (c : Char) : Char :=
  if 'A' ≤ c ∧ c ≤ 'Z' then Char.ofNat (c.toNat + 32) else c

/-- Python whitespace test for `str.strip`. -/
def isSpaceChar (c : Char) : Bool :=
  c == ' ' || c == '\t' || c == '\n' || c == '\r'

/-- Model of Python `str.strip` on a character list. -/
def stripChars (l : List Char) : List Char :=
  ((l.dropWhile isSpaceChar).reverse.dropWhile isSpaceChar).reverse

/-- `shift_eq` (app.py lines 127-128): case-insensitive, whitespace-trimmed
shift-label comparison, `a.strip().lower() == b.strip().lower()`. -/
def shift_eq (a b : String) : Bool :=
  (stripChars a.toList).map lowerChar == (stripChars b.toList).map lowerChar

/-! ### Calendar / week indexer (app.py lines 108-124) -/

/-- Gregorian leap-year test (as in Python's `datetime`). -/
def isLeap (y : Nat) : Bool :=
  y % 4 == 0 && (y % 100 != 0 || y % 400 == 0)

/-- Number of days in a month (proleptic Gregorian, as `datetime`). -/
def daysInMonth (y m : Nat) : Nat :=
  if m == 2 then (if isLeap y then 29 else 28)
  else if m == 4 || m == 6 || m == 9 || m == 11 then 30
  else 31

/-- Days in the months of year `y` strictly before month `m`. -/
def daysBeforeMonth (y m : Nat) : Nat :=
  ((List.range m).filter (fun k => 1 ≤ k)).foldl (fun acc k => acc + daysInMonth y k) 0

/-- Python `date.toordinal`: day number with 0001-01-01 ↦ 1 (proleptic
Gregorian).  Computed over `Int` with floor division exactly as Python's
`//` so that the ISO-week helper below can also be fed `year - 1`. -/
def toordinal (y m d : Nat) : Int :=
  365 * ((y : Int) - 1) + ((y : Int) - 1).fdiv 4 - ((y : Int) - 1).fdiv 100
    + ((y : Int) - 1).fdiv 400 + (daysBeforeMonth y m : Int) + (d : Int)

/-- `datetime._isoweek1monday`: ordinal of the Monday starting ISO week 1 of
`year`. -/
def isoweek1monday (year : Nat) : Int :=
  let firstday := toordinal year 1 1
  let firstweekday := (firstday + 6).emod 7
  let week1monday := firstday - firstweekday
  if 3 < firstweekday then week1monday + 7 else week1monday

/-- `date.isocalendar()[1]`: the ISO week number of a date, following the
CPython implementation. -/
def isoWeek (y m d : Nat) : Nat :=
  let today := toordinal y m d
  let week := (today - isoweek1monday y).fdiv 7
  if week < 0 then
    ((today - isoweek1monday (y - 1)).fdiv 7 + 1).toNat
  else if 52 ≤ week ∧ isoweek1monday (y + 1) ≤ today then 1
  else (week + 1).toNat

/-- Parse one decimal digit. -/
def digitVal (c : Char) : Option Nat :=
  if c.isDigit then some (c.toNat - 48) else none

/-- Model of `datetime.fromisoformat` restricted to the date-only form
`YYYY-MM-DD` (the only date form the scheduler's day labels can take):
returns the (year, month, day) triple when the string is a valid ISO
calendar date, and `none` otherwise. -/
def parseIsoDate (s : String) : Option (Nat × Nat × Nat) :=
  match s.toList with
  | [y1, y2, y3, y4, '-', m1, m2, '-', d1, d2] =>
    match digitVal y1, digitVal y2, digitVal y3, digitVal y4,
          digitVal m1, digitVal m2, digitVal d1, digitVal d2 with
    | some a, some b, some c, some d, some e, some f, some g, some h =>
      let y := 1000 * a + 100 * b + 10 * c + d
      let m := 10 * e + f
      let dd := 10 * g + h
      if 1 ≤ y ∧ 1 ≤ m ∧ m ≤ 12 ∧ 1 ≤ dd ∧ dd ≤ daysInMonth y m then
        some (y, m, dd)
      else none
    | _, _, _, _, _, _, _, _ => none
  | _ => none

/-- `is_iso_date` (app.py lines 108-113). -/
def is_iso_date (s : String) : Bool := (parseIsoDate s).isSome

/-- ISO week number of a day label (0 for non-dates; only ever applied to
labels that parse, mirroring `datetime.fromisoformat(d).isocalendar()[1]`). -/
def isoWeekOf (s : String) : Nat :=
  match parseIsoDate s with
  | some (y, m, d) => isoWeek y m d
  | none => 0

/-- First-occurrence deduplication, the order produced by Python's
`dict.fromkeys`. -/
def pyDedup {α : Type} [DecidableEq α] : List α → List α
  | [] => []
  | a :: l => a :: pyDedup (l.filter (fun b => decide (b ≠ a)))
termination_by l => l.length
decreasing_by
  simp only [List.length_cons]
  exact Nat.lt_succ_of_le (List.length_filter_le _ _)

/-- `get_week_index_map` (app.py lines 116-124), returning the constructed
dict as an association list in insertion order.  A `some []` explicit map is
falsy in Python and falls through exactly like `None`. -/
def get_week_index_map (days : List String)
    (explicit : Option (List (String × Nat))) : List (String × Nat) :=
  match explicit with
  | some (p :: ps) => p :: ps
  | _ =>
    if days.all is_iso_date then
      let iso_weeks := days.map isoWeekOf
      days.map (fun d => (d, (pyDedup iso_weeks).indexOf (isoWeekOf d)))
    else
      days.enum.map (fun p => (p.2, p.1 / 7))

/-- Lookup in the week-index dict (later insertions win, as in a Python
dict); total with default 0, which is never exercised because the solver
only looks up days the map was built from. -/
def lookupWeek (m : List (String × Nat)) (d : String) : Nat :=
  match m.reverse.find? (fun p => p.1 == d) with
  | some p => p.2
  | none => 0

/-- The `week_idx[d]` lookup used throughout `solve` (app.py line 150). -/
def weekIdx (inst : Inst) (d : String) : Nat :=
  lookupWeek (get_week_index_map inst.days inst.week_index_by_day) d

/-- The `weeks` grouping (app.py lines 192-194 / 200-202 / 302-304):
`weeks.setdefault(week_idx[d], []).append(d)` — buckets in first-appearance
key order, each bucket listing its days in input order. -/
def groupWeeks (days : List String) (widx : String → Nat) : List (Nat × List String) :=
  days.foldl
    (fun acc d =>
      let w := widx d
      if acc.any (fun p => p.1 == w) then
        acc.map (fun p => if p.1 == w then (p.1, p.2 ++ [d]) else p)
      else acc ++ [(w, [d])])
    []

/-! ### Strict model constraints (app.py lines 152-215)

Each `model.Add(...)` family becomes one executable check on a candidate
assignment; `strictOK` is their conjunction together with the declared
variable domains (lines 154-156). -/

/-- `sum(x[(n, d, s)] for n in nurses)` for Boolean variables. -/
def countAssigned (nurses : List String) (x : XFun) (d s : String) : Nat :=
  (nurses.filter (fun n => x n d s)).length

/-- `sum(x[(n, d, s)] for d in days for s in shifts)` — a nurse's total. -/
def totalAssigned (inst : Inst) (x : XFun) (n : String) : Nat :=
  (inst.days.map (fun d => (inst.shifts.filter (fun s => x n d s)).length)).sum

/-- Rule 1, coverage with understaff slack (lines 158-161), together with
the `under` variable domain `0 ≤ under ≤ len(nurses)` (line 155):
`sum(x) + under == demand[d][s]` for every (day, shift). -/
def covOK (inst : Inst) (x : XFun) (under : String → String → Nat) : Bool :=
  inst.days.all fun d => inst.shifts.all fun s =>
    decide (under d s ≤ inst.nurses.length) &&
      (countAssigned inst.nurses x d s + under d s == inst.demand d s)

/-- Rule 2 (lines 163-166): at most one shift per nurse per day. -/
def onePerDayOK (inst : Inst) (x : XFun) : Bool :=
  inst.nurses.all fun n => inst.days.all fun d =>
    decide ((inst.shifts.filter (fun s => x n d s)).length ≤ 1)

/-- Rule 3 (lines 168-173): unavailable (nurse, day, shift) combinations
are pinned to 0. -/
def availOK (inst : Inst) (x : XFun) : Bool :=
  inst.nurses.all fun n => inst.days.all fun d => inst.shifts.all fun s =>
    is_available inst.avail n d s || !(x n d s)

/-- Rule 4 (lines 175-179) plus the `over` domain (line 156): per-nurse
total with overtime slack, `total - over[n] <= per_nurse_max[n]` and
`total >= per_nurse_min[n]`. -/
def totalsOK (inst : Inst) (x : XFun) (over : String → Nat) : Bool :=
  inst.nurses.all fun n =>
    decide (over n ≤ inst.days.length * inst.shifts.length) &&
    decide ((totalAssigned inst x n : Int) - over n ≤ inst.max_total n) &&
    decide (inst.min_total n ≤ (totalAssigned inst x n : Int))

/-- Rule 5 (lines 181-187): no Night→Morning on adjacent days, guarded on
both canonical labels existing; `next(...)` is the first matching label. -/
def adjOK (inst : Inst) (x : XFun) : Bool :=
  if (inst.shifts.any fun s => shift_eq s "night") &&
      (inst.shifts.any fun s => shift_eq s "morning") then
    match inst.shifts.find? (fun s => shift_eq s "night"),
          inst.shifts.find? (fun s => shift_eq s "morning") with
    | some night_name, some morning_name =>
      inst.nurses.all fun n => (inst.days.zip inst.days.tail).all fun p =>
        decide (bnum (x n p.1 night_name) + bnum (x n p.2 morning_name) ≤ 1)
    | _, _ => true
  else true

/-- Rule 6 (lines 189-197): at most 2 nights per week bucket. -/
def weeklyNightOK (inst : Inst) (x : XFun) : Bool :=
  if inst.shifts.any fun s => shift_eq s "night" then
    match inst.shifts.find? (fun s => shift_eq s "night") with
    | some night_name =>
      inst.nurses.all fun n =>
        (groupWeeks inst.days (weekIdx inst)).all fun p =>
          decide ((p.2.filter (fun d => x n d night_name)).length ≤ 2)
    | none => true
  else true

/-- Rule 7 (lines 199-206): at most `max(0, len(bucket) - 2)` working days
per week bucket (`Nat` subtraction is exactly that clipped cap). -/
def restOK (inst : Inst) (x : XFun) : Bool :=
  inst.nurses.all fun n =>
    (groupWeeks inst.days (weekIdx inst)).all fun p =>
      decide ((p.2.map (fun d => (inst.shifts.filter (fun s => x n d s)).length)).sum
        ≤ p.2.length - 2)

/-- Rule 8 (lines 208-215): hard Senior requirement.  Only the literal
skill label "Senior" is consulted by the code. -/
def seniorOK (inst : Inst) (x : XFun) : Bool :=
  inst.days.all fun d => inst.shifts.all fun s =>
    let need_senior := inst.required_skills d s "Senior"
    if 0 < need_senior then
      decide (need_senior ≤
        (((inst.nurses.filter fun n => (inst.nurse_skills n).contains "Senior").filter
          fun n => x n d s)).length)
    else true

/-- All constraints of the strict model (a candidate assignment is a
solution the strict solver may return exactly when this holds). -/
def strictOK (inst : Inst) (sol : Sol) : Bool :=
  covOK inst sol.x sol.under && onePerDayOK inst sol.x && availOK inst sol.x &&
    totalsOK inst sol.x sol.over && adjOK inst sol.x && weeklyNightOK inst sol.x &&
    restOK inst sol.x && seniorOK inst sol.x

/-! ### Relaxed model constraints (app.py lines 276-348) -/

/-- Relaxed rule 4 (lines 295-299): only the max-with-overtime bound is
kept; the minimum-total constraint is dropped. -/
def rTotalsOK (inst : Inst) (x : XFun) (over : String → Nat) : Bool :=
  inst.nurses.all fun n =>
    decide (over n ≤ inst.days.length * inst.shifts.length) &&
    decide ((totalAssigned inst x n : Int) - over n ≤ inst.max_total n)

/-- Soft Night→Morning (lines 308-319): per (nurse, adjacent-pair index) a
Boolean violation variable with floor `v >= x_night + x_morning - 1`. -/
def rNightMorningOK (inst : Inst) (r : RSol) : Bool :=
  if (inst.shifts.any fun s => shift_eq s "night") &&
      (inst.shifts.any fun s => shift_eq s "morning") then
    match inst.shifts.find? (fun s => shift_eq s "night"),
          inst.shifts.find? (fun s => shift_eq s "morning") with
    | some night_name, some morning_name =>
      inst.nurses.all fun n =>
        (inst.days.zip inst.days.tail).enum.all fun q =>
          decide ((bnum (r.x n q.2.1 night_name) : Int) + bnum (r.x n q.2.2 morning_name)
            - 1 ≤ bnum (r.nmViol n q.1))
    | _, _ => true
  else true

/-- Soft weekly night cap (lines 321-329): per (nurse, week) an overflow
variable in `[0, len(bucket)]` with floor `nights - 2 <= extra`. -/
def rWeeklyNightOK (inst : Inst) (r : RSol) : Bool :=
  if inst.shifts.any fun s => shift_eq s "night" then
    match inst.shifts.find? (fun s => shift_eq s "night") with
    | some night_name =>
      inst.nurses.all fun n =>
        (groupWeeks inst.days (weekIdx inst)).all fun p =>
          decide (r.wnOver n p.1 ≤ p.2.length) &&
          decide (((p.2.filter (fun d => r.x n d night_name)).length : Int) - 2
            ≤ r.wnOver n p.1)
    | none => true
  else true

/-- Soft weekly rest (lines 331-338): per (nurse, week) an overflow variable
in `[0, len(bucket)]` with floor `worked - cap <= extra`. -/
def rRestOK (inst : Inst) (r : RSol) : Bool :=
  inst.nurses.all fun n =>
    (groupWeeks inst.days (weekIdx inst)).all fun p =>
      decide (r.wdOver n p.1 ≤ p.2.length) &&
      decide (((p.2.map (fun d => (inst.shifts.filter (fun s => r.x n d s)).length)).sum : Int)
        - ((p.2.length - 2 : Nat) : Int) ≤ r.wdOver n p.1)

/-- Soft Senior requirement (lines 340-348): shortage variable in
`[0, need]` with `assigned_seniors + shortage >= need`. -/
def rSeniorOK (inst : Inst) (r : RSol) : Bool :=
  inst.days.all fun d => inst.shifts.all fun s =>
    let need_senior := inst.required_skills d s "Senior"
    if 0 < need_senior then
      decide (r.skillShort d s ≤ need_senior) &&
      decide (need_senior ≤
        (((inst.nurses.filter fun n => (inst.nurse_skills n).contains "Senior").filter
          fun n => r.x n d s)).length + r.skillShort d s)
    else true

/-- All constraints of the relaxed model: coverage, one-shift-per-day and
availability stay hard and identical (lines 282-293), the rest is soft. -/
def relaxedOK (inst : Inst) (r : RSol) : Bool :=
  covOK inst r.x r.under && onePerDayOK inst r.x && availOK inst r.x &&
    rTotalsOK inst r.x r.over && rNightMorningOK inst r && rWeeklyNightOK inst r &&
    rRestOK inst r && rSeniorOK inst r

/-! ### Objectives (app.py lines 217-230 and 350-372) -/

/-- Strict objective: understaffing, overtime and preference penalties
(preference terms only where the penalty is non-zero). -/
def strictObjective (inst : Inst) (sol : Sol) : Int :=
  (inst.days.map fun d => (inst.shifts.map fun s =>
      inst.weights.understaff_penalty * (sol.under d s : Int)).sum).sum
  + (inst.nurses.map fun n => inst.weights.overtime_penalty * (sol.over n : Int)).sum
  + (inst.nurses.map fun n => (inst.days.map fun d => (inst.shifts.map fun s =>
      let pen := get_pref_penalty inst n d s
      if pen ≠ 0 then
        inst.weights.preference_penalty_multiplier * pen * (bnum (sol.x n d s) : Int)
      else 0).sum).sum).sum

/-- Relaxed objective: the strict terms plus the four soft-violation
penalty families. -/
def relaxedObjective (inst : Inst) (r : RSol) : Int :=
  strictObjective inst ⟨r.x, r.under, r.over⟩
  + (inst.nurses.map fun n => ((inst.days.zip inst.days.tail).enum.map fun q =>
      inst.weights.night_morning_penalty * (bnum (r.nmViol n q.1) : Int)).sum).sum
  + (inst.nurses.map fun n => ((groupWeeks inst.days (weekIdx inst)).map fun p =>
      inst.weights.weekly_night_over_penalty * (r.wnOver n p.1 : Int)).sum).sum
  + (inst.nurses.map fun n => ((groupWeeks inst.days (weekIdx inst)).map fun p =>
      inst.weights.weekly_overwork_penalty * (r.wdOver n p.1 : Int)).sum).sum
  + (inst.days.map fun d => (inst.shifts.map fun s =>
      inst.weights.skill_shortage_penalty * (r.skillShort d s : Int)).sum).sum

/-! ### Result packing (app.py lines 237-271 and 379-415) -/

/-- The assignment-collection loop shared verbatim by `pack_strict`
(lines 239-243) and `pack_relaxed` (lines 381-385): days, then shifts,
then nurses, emitting a row for every true decision variable. -/
def packAssignments (nurses days shifts : List String) (x : XFun) : List Assignment :=
  days.flatMap fun d => shifts.flatMap fun s =>
    (nurses.filter fun n => x n d s).map fun n => { day := d, shift := s, nurse := n }

/-- The understaffing-collection loop shared by `pack_strict`
(lines 244-248) and `pack_relaxed` (lines 386-390): a row per (day, shift)
with non-zero slack. -/
def packUnderstaffed (days shifts : List String)
    (under : String → String → Nat) : List UnderstaffItem :=
  days.flatMap fun d => shifts.flatMap fun s =>
    if under d s ≠ 0 then [{ day := d, shift := s, missing := under d s }] else []

/-- The per-nurse statistics loop shared by `pack_strict` (lines 249-258)
and `pack_relaxed` (lines 391-400). -/
def packStats (inst : Inst) (x : XFun) (over : String → Nat) : List NurseStats :=
  let night_label := inst.shifts.find? fun s => shift_eq s "night"
  inst.nurses.map fun n =>
    { nurse := n
      assigned_shifts := totalAssigned inst x n
      overtime := over n
      nights :=
        match night_label with
        | some nl => (inst.days.filter fun d => x n d nl).length
        | none => 0 }

/-- `pack_strict` (lines 237-271).  Note the status strings are the bare
`"OPTIMAL"` / `"FEASIBLE"` (line 260). -/
def pack_strict (inst : Inst) (code : CpStatus) (sol : Sol) : SolveResponse :=
  { status := if code = CpStatus.OPTIMAL then "OPTIMAL" else "FEASIBLE"
    objective_value := some (strictObjective inst sol)
    assignments := packAssignments inst.nurses inst.days inst.shifts sol.x
    understaffed := packUnderstaffed inst.days inst.shifts sol.under
    nurse_stats := packStats inst sol.x sol.over }

/-- `pack_relaxed` (lines 379-415), with statuses `"RELAXED_OPTIMAL"` /
`"RELAXED_FEASIBLE"` (line 401). -/
def pack_relaxed (inst : Inst) (code : CpStatus) (r : RSol) : SolveResponse :=
  { status := if code = CpStatus.OPTIMAL then "RELAXED_OPTIMAL" else "RELAXED_FEASIBLE"
    objective_value := some (relaxedObjective inst r)
    assignments := packAssignments inst.nurses inst.days inst.shifts r.x
    understaffed := packUnderstaffed inst.days inst.shifts r.under
    nurse_stats := packStats inst r.x r.over }

/-! ### Last-resort heuristic (app.py lines 420-484) -/

/-- `has_skill` (lines 421-422). -/
def has_skill (inst : Inst) (n skill : String) : Bool :=
  (inst.nurse_skills n).contains skill

/-- `is_avail` (lines 424-425) — the heuristic's availability test; on this
model of the nested dicts it coincides with `is_available`. -/
def is_avail (inst : Inst) (n d s : String) : Bool :=
  is_available inst.avail n d s

/-- One greedy selection scan over the nurse list (the shape shared by the
Senior pass, lines 438-444, and the fill pass, lines 446-452): stop as soon
as `chosen` reaches `limit`; otherwise take each eligible nurse not yet
used that day, marking it used.  `used` is the set of (nurse, day) pairs
currently marked `True`. -/
def scanPick (d : String) (elig : String → Bool) (limit : Nat) :
    List String → List String → List (String × String) →
      List String × List (String × String)
  | [], chosen, used => (chosen, used)
  | n :: ns, chosen, used =>
    if limit ≤ chosen.length then (chosen, used)
    else if elig n && !used.contains (n, d) then
      scanPick d elig limit ns (chosen ++ [n]) ((n, d) :: used)
    else scanPick d elig limit ns chosen used

/-- Pass 1 of the heuristic's per-(day, shift) body (lines 437-444): pick
Seniors first, only when a Senior requirement exists. -/
def seniorPass (inst : Inst) (d s : String) (used : List (String × String)) :
    List String × List (String × String) :=
  if 0 < inst.required_skills d s "Senior" then
    scanPick d (fun n => is_avail inst n d s && has_skill inst n "Senior")
      (inst.required_skills d s "Senior") inst.nurses [] used
  else ([], used)

/-- The heuristic's per-(day, shift) body (lines 430-455): the Senior pass,
then pass 2 (lines 446-452) filling the remaining seats up to
`demand[d][s]` from the whole nurse list. -/
def fillShift (inst : Inst) (d s : String) (used : List (String × String)) :
    List String × List (String × String) :=
  scanPick d (fun n => is_avail inst n d s) (inst.demand d s) inst.nurses
    (seniorPass inst d s used).1 (seniorPass inst d s used).2

/-- One (day, shift) iteration of the heuristic's main loop, appending the
chosen nurses as `Assignment` rows (lines 454-455). -/
def heurStep (inst : Inst) (acc : List Assignment × List (String × String))
    (d s : String) : List Assignment × List (String × String) :=
  let picked := fillShift inst d s acc.2
  (acc.1 ++ picked.1.map (fun n => { day := d, shift := s, nurse := n }), picked.2)

/-- The heuristic's full double loop over days and shifts (lines 430-455),
starting from no assignments and an all-False `used` map. -/
def heurLoop (inst : Inst) : List Assignment × List (String × String) :=
  inst.days.foldl
    (fun acc d => inst.shifts.foldl (fun acc2 s => heurStep inst acc2 d s) acc)
    ([], [])

/-- The heuristic's assignment list. -/
def heurAssignments (inst : Inst) : List Assignment := (heurLoop inst).1

/-- The heuristic's per-nurse statistics (lines 457-466): a dict keyed by
the nurses (first-occurrence order, duplicates collapsed), counting
assignments and nights; overtime is always 0. -/
def heurStats (nurses : List String) (asg : List Assignment) : List NurseStats :=
  (pyDedup nurses).map fun n =>
    { nurse := n
      assigned_shifts := asg.countP fun a => a.nurse == n
      overtime := 0
      nights := asg.countP fun a => a.nurse == n && shift_eq a.shift "night" }

/-- The heuristic's post-hoc understaffing (lines 468-475):
`max(0, demand - assigned_count)` per (day, shift), rows only when
positive (`Nat` subtraction is the clipped `max(0, ·)`). -/
def heurUnderstaffed (inst : Inst) (asg : List Assignment) : List UnderstaffItem :=
  inst.days.flatMap fun d => inst.shifts.flatMap fun s =>
    let miss := inst.demand d s - asg.countP fun a => a.day == d && a.shift == s
    if miss ≠ 0 then [{ day := d, shift := s, missing := miss }] else []

/-- The heuristic tier's response (lines 477-484). -/
def heurResponse (inst : Inst) : SolveResponse :=
  let asg := heurAssignments inst
  { status := "HEURISTIC"
    objective_value := none
    assignments := asg
    understaffed := heurUnderstaffed inst asg
    nurse_stats := heurStats inst.nurses asg }

/-! ### The solve cascade (app.py lines 134-484)

The two CP-SAT `Solve` calls are external oracles: each reports a
`CpStatus` and, when successful, a variable assignment.  `solve` reproduces
the cascade's control flow: pack the strict result when the strict status is
OPTIMAL or FEASIBLE (line 273), else pack the relaxed result when that tier
succeeded (line 417), else run the heuristic. -/
def solve (inst : Inst) (strictRes : CpStatus) (strictSol : Sol)
    (relaxedRes : CpStatus) (relaxedSol : RSol) : SolveResponse :=
  if strictRes = CpStatus.OPTIMAL ∨ strictRes = CpStatus.FEASIBLE then
    pack_strict inst strictRes strictSol
  else if relaxedRes = CpStatus.OPTIMAL ∨ relaxedRes = CpStatus.FEASIBLE then
    pack_relaxed inst relaxedRes relaxedSol
  else heurResponse inst

/-! ### Derived response observations used by the claims -/

/-- The understaffing slack reported for a (day, shift): the sum of the
`missing` fields of its `UnderstaffItem` rows (0 when no row is emitted;
the packers emit at most one row per pair). -/
def reportedMissing (resp : SolveResponse) (d s : String) : Nat :=
  ((resp.understaffed.filter fun u => u.day == d && u.shift == s).map
    (fun u => u.missing)).sum

/-- Total understaffing reported in a response. -/
def totalMissing (resp : SolveResponse) : Nat :=
  (resp.understaffed.map (fun u => u.missing)).sum

/-- Spec-side reading of rule 8 (spec §4.3 item 8, quoted by claim C4):
for every (day, shift) and every skill label in `labels` with a positive
requirement, the assigned nurses holding that skill must reach it.  This
follows the spec's words, to be compared against the code's `seniorOK`. -/
def spec_skillCoverage (inst : Inst) (x : XFun) (labels : List String) : Prop :=
  ∀ d ∈ inst.days, ∀ s ∈ inst.shifts, ∀ skill ∈ labels,
    0 < inst.required_skills d s skill →
    inst.required_skills d s skill ≤
      ((inst.nurses.filter fun n => (inst.nurse_skills n).contains skill).filter
        fun n => x n d s).length

instance (inst : Inst) (x : XFun) (labels : List String) :
    Decidable (spec_skillCoverage inst x labels) := by
  unfold spec_skillCoverage
  infer_instance

/-! ### Concrete instances for witnesses and counterexamples -/

/-- An all-zero strict-model assignment. -/
def sol0 : Sol :=
  { x := fun _ _ _ => false, under := fun _ _ => 0, over := fun _ => 0 }

/-- An all-zero relaxed-model assignment. -/
def rsol0 : RSol :=
  { x := fun _ _ _ => false, under := fun _ _ => 0, over := fun _ => 0
    nmViol := fun _ _ => false, wnOver := fun _ _ => 0, wdOver := fun _ _ => 0
    skillShort := fun _ _ => 0 }

/-- Empty base instance; concrete instances below override its fields. -/
def baseInst : Inst :=
  { nurses := [], days := [], shifts := []
    demand := fun _ _ => 0
    min_total := fun _ => 0, max_total := fun _ => 0
    avail := none
    prefs := fun _ _ _ => 0
    nurse_skills := fun _ => []
    required_skills := fun _ _ _ => 0
    week_index_by_day := none
    weights := {} }

/-- One nurse, one day, one shift, zero demand, a "Junior" skill
requirement of 1 that the strict model never reads. -/
def instJunior : Inst :=
  { baseInst with
    nurses := ["A"], days := ["D1"], shifts := ["S1"]
    max_total := fun _ => 1
    required_skills := fun _ _ skill => if skill == "Junior" then 1 else 0 }

/-- A 3-day instance with one Senior nurse and a Senior requirement of 1 on
day 1 (witness instance for the amended C4). -/
def instSenior : Inst :=
  { baseInst with
    nurses := ["A"], days := ["D1", "D2", "D3"], shifts := ["S1"]
    demand := fun d _ => if d == "D1" then 1 else 0
    max_total := fun _ => 3
    nurse_skills := fun _ => ["Senior"]
    required_skills := fun d _ skill =>
      if d == "D1" && skill == "Senior" then 1 else 0 }

/-- The strict solution assigning the Senior nurse on day 1. -/
def solSenior : Sol :=
  { x := fun n d s => n == "A" && d == "D1" && s == "S1"
    under := fun _ _ => 0, over := fun _ => 0 }

/-- One nurse, one day, one shift, demand 3: more than the nurse plus the
slack cap `len(nurses)` can cover. -/
def instBigDemand : Inst :=
  { baseInst with
    nurses := ["A"], days := ["D1"], shifts := ["S1"]
    demand := fun _ _ => 3
    max_total := fun _ => 1 }

/-- Claim C8's scenario: 1 nurse, 2 days, shifts Night and Morning, demand
1 Night on day 1 and 1 Morning on day 2 (zero elsewhere, as `check_demand`
requires every pair to be present). -/
def instC8 : Inst :=
  { baseInst with
    nurses := ["N1"], days := ["D1", "D2"], shifts := ["Night", "Morning"]
    demand := fun d s =>
      if d == "D1" && s == "Night" then 1
      else if d == "D2" && s == "Morning" then 1
      else 0
    max_total := fun _ => 2 }

/-- The everything-understaffed solution of `instC8`. -/
def solC8 : Sol :=
  { x := fun _ _ _ => false
    under := fun d s =>
      if d == "D1" && s == "Night" then 1
      else if d == "D2" && s == "Morning" then 1
      else 0
    over := fun _ => 0 }

/-- Two Senior nurses, demand 1 but Senior requirement 2 on the only
(day, shift): the heuristic's Senior pass overfills past demand. -/
def instOverfill : Inst :=
  { baseInst with
    nurses := ["A", "B"], days := ["D1"], shifts := ["S1"]
    demand := fun _ _ => 1
    max_total := fun _ => 1
    nurse_skills := fun _ => ["Senior"]
    required_skills := fun _ _ skill => if skill == "Senior" then 2 else 0 }

/-- Two nurses with nurse "A" marked unavailable (value 0) everywhere,
demand 1 on the only (day, shift). -/
def instUnavail : Inst :=
  { baseInst with
    nurses := ["A", "B"], days := ["D1"], shifts := ["S1"]
    demand := fun _ _ => 1
    max_total := fun _ => 1
    avail := some (fun n _ _ => if n == "A" then some 0 else none) }

/-- 14 consecutive ISO dates, 2024-01-01 (a Monday, ISO week 1) through
2024-01-14 (a Sunday, ISO week 2). -/
def isoDays14 : List String :=
  ["2024-01-01", "2024-01-02", "2024-01-03", "2024-01-04", "2024-01-05",
   "2024-01-06", "2024-01-07", "2024-01-08", "2024-01-09", "2024-01-10",
   "2024-01-11", "2024-01-12", "2024-01-13", "2024-01-14"]

/-- 14 opaque (non-date) day labels. -/
def labelDays14 : List String :=
  ["d01", "d02", "d03", "d04", "d05", "d06", "d07",
   "d08", "d09", "d10", "d11", "d12", "d13", "d14"]

/-! ### Generic list-counting helpers -/

theorem countP_flatMap {α β : Type} (l : List α) (F : α → List β) (p : β → Bool) :
    (l.flatMap F).countP p = (l.map fun a => (F a).countP p).sum := by
  induction l with
  | nil => simp
  | cons a l ih => simp [List.flatMap_cons, ih]

theorem sum_filter_flatMap {α β : Type} (l : List α) (F : α → List β)
    (q : β → Bool) (m : β → Nat) :
    (((l.flatMap F).filter q).map m).sum
      = (l.map fun a => (((F a).filter q).map m).sum).sum := by
  induction l with
  | nil => simp
  | cons a l ih => simp [List.flatMap_cons, ih]

theorem sum_map_zero {α : Type} {l : List α} {f : α → Nat}
    (h : ∀ b ∈ l, f b = 0) : (l.map f).sum = 0 := by
  induction l with
  | nil => simp
  | cons a l ih =>
    simp [h a (List.mem_cons_self _ _), ih fun b hb => h b (List.mem_cons_of_mem _ hb)]

theorem sum_map_eq_single {α : Type} {l : List α} {f : α → Nat} {a : α}
    (hnd : l.Nodup) (ha : a ∈ l) (hz : ∀ b ∈ l, b ≠ a → f b = 0) :
    (l.map f).sum = f a := by
  induction l with
  | nil => cases ha
  | cons b l ih =>
    obtain ⟨hbl, hl⟩ := List.nodup_cons.mp hnd
    rcases List.mem_cons.mp ha with rfl | ha'
    · have hrest : ∀ c ∈ l, f c = 0 := fun c hc =>
        hz c (List.mem_cons_of_mem _ hc) (fun hEq => hbl (hEq ▸ hc))
      simp [sum_map_zero hrest]
    · have hb : f b = 0 :=
        hz b (List.mem_cons_self _ _) (fun hEq => hbl (hEq ▸ ha'))
      simp [hb, ih hl ha' fun c hc hne => hz c (List.mem_cons_of_mem _ hc) hne]

theorem sum_map_le_single {α : Type} {l : List α} {f : α → Nat} {a : α}
    (hnd : l.Nodup) (hz : ∀ b ∈ l, b ≠ a → f b = 0) :
    (l.map f).sum ≤ f a := by
  by_cases ha : a ∈ l
  · exact le_of_eq (sum_map_eq_single hnd ha hz)
  · have hrest : ∀ b ∈ l, f b = 0 := fun b hb => hz b hb (fun hEq => ha (hEq ▸ hb))
    simp [sum_map_zero hrest]

theorem sum_map_ite_const {α : Type} (l : List α) (p : α → Bool) (c : Nat) :
    (l.map fun a => if p a then c else 0).sum = c * (l.filter p).length := by
  induction l with
  | nil => simp
  | cons a l ih =>
    by_cases h : p a = true
    · simp [h, ih, Nat.mul_succ, Nat.add_comm]
    · simp [h, ih]

/-- First-occurrence dedup is the identity on duplicate-free lists. -/
theorem pyDedup_eq_self {α : Type} [DecidableEq α] {l : List α}
    (h : l.Nodup) : pyDedup l = l := by
  induction l with
  | nil => rw [pyDedup]
  | cons a l ih =>
    obtain ⟨hal, hl⟩ := List.nodup_cons.mp h
    rw [pyDedup]
    have : l.filter (fun b => decide (b ≠ a)) = l :=
      List.filter_eq_self.mpr fun b hb => decide_eq_true (fun hEq => hal (hEq ▸ hb))
    rw [this, ih hl]

/-! ### Extraction lemmas for the model constraints -/

theorem covOK_spec {inst : Inst} {x : XFun} {under : String → String → Nat}
    (h : covOK inst x under = true) :
    ∀ d ∈ inst.days, ∀ s ∈ inst.shifts,
      under d s ≤ inst.nurses.length ∧
        countAssigned inst.nurses x d s + under d s = inst.demand d s := by
  intro d hd s hs
  unfold covOK at h
  rw [List.all_eq_true] at h
  have h2 := h d hd
  rw [List.all_eq_true] at h2
  have h3 := h2 s hs
  simpa using h3

theorem onePerDayOK_spec {inst : Inst} {x : XFun}
    (h : onePerDayOK inst x = true) :
    ∀ n ∈ inst.nurses, ∀ d ∈ inst.days,
      (inst.shifts.filter fun s => x n d s).length ≤ 1 := by
  intro n hn d hd
  unfold onePerDayOK at h
  rw [List.all_eq_true] at h
  have h2 := h n hn
  rw [List.all_eq_true] at h2
  simpa using h2 d hd

theorem availOK_spec {inst : Inst} {x : XFun} (h : availOK inst x = true) :
    ∀ n ∈ inst.nurses, ∀ d ∈ inst.days, ∀ s ∈ inst.shifts,
      is_available inst.avail n d s = false → x n d s = false := by
  intro n hn d hd s hs hun
  unfold availOK at h
  rw [List.all_eq_true] at h
  have h2 := h n hn
  rw [List.all_eq_true] at h2
  have h3 := h2 d hd
  rw [List.all_eq_true] at h3
  have h4 := h3 s hs
  rw [hun] at h4
  simpa using h4

theorem restOK_spec {inst : Inst} {x : XFun} (h : restOK inst x = true) :
    ∀ n ∈ inst.nurses, ∀ p ∈ groupWeeks inst.days (weekIdx inst),
      (p.2.map fun d => (inst.shifts.filter fun s => x n d s).length).sum
        ≤ p.2.length - 2 := by
  intro n hn p hp
  unfold restOK at h
  rw [List.all_eq_true] at h
  have h2 := h n hn
  rw [List.all_eq_true] at h2
  simpa using h2 p hp

theorem seniorOK_spec {inst : Inst} {x : XFun} (h : seniorOK inst x = true) :
    ∀ d ∈ inst.days, ∀ s ∈ inst.shifts,
      0 < inst.required_skills d s "Senior" →
      inst.required_skills d s "Senior" ≤
        ((inst.nurses.filter fun n => (inst.nurse_skills n).contains "Senior").filter
          fun n => x n d s).length := by
  intro d hd s hs hpos
  unfold seniorOK at h
  rw [List.all_eq_true] at h
  have h2 := h d hd
  rw [List.all_eq_true] at h2
  have h3 := h2 s hs
  simp only [if_pos hpos, decide_eq_true_eq] at h3
  exact h3

theorem strictOK_parts {inst : Inst} {sol : Sol} (h : strictOK inst sol = true) :
    covOK inst sol.x sol.under = true ∧ onePerDayOK inst sol.x = true ∧
      availOK inst sol.x = true ∧ totalsOK inst sol.x sol.over = true ∧
      adjOK inst sol.x = true ∧ weeklyNightOK inst sol.x = true ∧
      restOK inst sol.x = true ∧ seniorOK inst sol.x = true := by
  simpa [strictOK, Bool.and_eq_true, and_assoc] using h

theorem relaxedOK_parts {inst : Inst} {r : RSol} (h : relaxedOK inst r = true) :
    covOK inst r.x r.under = true ∧ onePerDayOK inst r.x = true ∧
      availOK inst r.x = true ∧ rTotalsOK inst r.x r.over = true ∧
      rNightMorningOK inst r = true ∧ rWeeklyNightOK inst r = true ∧
      rRestOK inst r = true ∧ rSeniorOK inst r = true := by
  simpa [relaxedOK, Bool.and_eq_true, and_assoc] using h

/-! ### Packing lemmas -/

theorem pair_beq_false {d' s' d s : String} (h : ¬(d' = d ∧ s' = s)) :
    (d' == d && s' == s) = false := by
  by_cases h1 : d' = d
  · by_cases h2 : s' = s
    · exact absurd ⟨h1, h2⟩ h
    · simp [h2]
  · simp [h1]

theorem packAssignments_countP_pair (nurses days shifts : List String) (x : XFun)
    (hd : days.Nodup) (hs : shifts.Nodup) {d s : String}
    (hdm : d ∈ days) (hsm : s ∈ shifts) :
    (packAssignments nurses days shifts x).countP
        (fun a => a.day == d && a.shift == s)
      = countAssigned nurses x d s := by
  unfold packAssignments
  have inner : ∀ d' s',
      ((nurses.filter fun n => x n d' s').map
          (fun n => ({ day := d', shift := s', nurse := n } : Assignment))).countP
        (fun a => a.day == d && a.shift == s)
      = if d' = d ∧ s' = s then countAssigned nurses x d' s' else 0 := by
    intro d' s'
    rw [List.countP_map]
    by_cases hcase : d' = d ∧ s' = s
    · obtain ⟨rfl, rfl⟩ := hcase
      simp [Function.comp_def, countAssigned]
    · have hb := pair_beq_false hcase
      simp [Function.comp_def, hb, hcase]
  simp only [countP_flatMap, inner]
  rw [sum_map_eq_single hd hdm (fun d' _ hne => sum_map_zero (fun s' _ => by
    rw [if_neg fun h : d' = d ∧ s' = s => hne h.1]))]
  rw [sum_map_eq_single hs hsm (fun s' _ hne => by
    rw [if_neg fun h : d = d ∧ s' = s => hne h.2])]
  simp

theorem packUnderstaffed_reported (days shifts : List String)
    (under : String → String → Nat) (hd : days.Nodup) (hs : shifts.Nodup)
    {d s : String} (hdm : d ∈ days) (hsm : s ∈ shifts) :
    (((packUnderstaffed days shifts under).filter
        fun u => u.day == d && u.shift == s).map (fun u => u.missing)).sum
      = under d s := by
  unfold packUnderstaffed
  have inner : ∀ d' s',
      (((if under d' s' ≠ 0 then
            [({ day := d', shift := s', missing := under d' s' } : UnderstaffItem)]
          else []).filter fun u => u.day == d && u.shift == s).map
        (fun u => u.missing)).sum
      = if d' = d ∧ s' = s then under d' s' else 0 := by
    intro d' s'
    by_cases hz : under d' s' = 0
    · by_cases hcase : d' = d ∧ s' = s
      · obtain ⟨rfl, rfl⟩ := hcase
        simp [hz]
      · simp [hz, hcase]
    · by_cases hcase : d' = d ∧ s' = s
      · obtain ⟨rfl, rfl⟩ := hcase
        simp [hz]
      · have hb := pair_beq_false hcase
        simp [hz, hb, hcase]
  simp only [sum_filter_flatMap, inner]
  rw [sum_map_eq_single hd hdm (fun d' _ hne => sum_map_zero (fun s' _ => by
    rw [if_neg fun h : d' = d ∧ s' = s => hne h.1]))]
  rw [sum_map_eq_single hs hsm (fun s' _ hne => by
    rw [if_neg fun h : d = d ∧ s' = s => hne h.2])]
  simp

theorem packAssignments_onePerDay (nurses days shifts : List String) (x : XFun)
    (hn : nurses.Nodup) (hd : days.Nodup)
    (hcon : ∀ n ∈ nurses, ∀ d ∈ days, (shifts.filter fun s => x n d s).length ≤ 1)
    (n d : String) :
    (packAssignments nurses days shifts x).countP
      (fun a => a.nurse == n && a.day == d) ≤ 1 := by
  unfold packAssignments
  have inner : ∀ d' s',
      ((nurses.filter fun n' => x n' d' s').map
          (fun n' => ({ day := d', shift := s', nurse := n' } : Assignment))).countP
        (fun a => a.nurse == n && a.day == d)
      = if d' = d then (if x n d' s' then nurses.count n else 0) else 0 := by
    intro d' s'
    rw [List.countP_map]
    by_cases hdd : d' = d
    · subst hdd
      have hpred : ((fun a : Assignment => a.nurse == n && a.day == d') ∘
          fun n' => ({ day := d', shift := s', nurse := n' } : Assignment))
          = fun n' => n' == n := by
        funext n'
        simp [Function.comp_def]
      rw [hpred, if_pos rfl]
      by_cases hx : x n d' s' = true
      · rw [if_pos hx]
        show (nurses.filter fun n' => x n' d' s').count n = nurses.count n
        exact List.count_filter hx
      · rw [if_neg hx]
        show (nurses.filter fun n' => x n' d' s').count n = 0
        exact List.count_eq_zero_of_not_mem fun hmem =>
          hx (List.mem_filter.mp hmem).2
    · have hpred : ((fun a : Assignment => a.nurse == n && a.day == d) ∘
          fun n' => ({ day := d', shift := s', nurse := n' } : Assignment))
          = fun _ => false := by
        funext n'
        simp [Function.comp_def, hdd]
      rw [hpred, if_neg hdd]
      simp
  simp only [countP_flatMap, inner]
  by_cases hdm : d ∈ days
  · have step : (days.map fun d' => (shifts.map fun s' =>
        if d' = d then (if x n d' s' then nurses.count n else 0) else 0).sum).sum
        ≤ (shifts.map fun s' =>
            if d = d then (if x n d s' then nurses.count n else 0) else 0).sum :=
      sum_map_le_single hd (fun d' _ hne => sum_map_zero (fun s' _ => by
        rw [if_neg hne]))
    refine le_trans step ?_
    rw [show (shifts.map fun s' =>
          if d = d then (if x n d s' then nurses.count n else 0) else 0)
        = shifts.map fun s' => (if x n d s' then nurses.count n else 0) from
      List.map_congr_left fun s' _ => if_pos rfl]
    rw [sum_map_ite_const shifts (fun s' => x n d s') (nurses.count n)]
    by_cases hmem : n ∈ nurses
    · calc nurses.count n * (shifts.filter fun s' => x n d s').length
          ≤ 1 * 1 :=
            Nat.mul_le_mul (List.nodup_iff_count_le_one.mp hn n) (hcon n hmem d hdm)
        _ = 1 := by simp
    · simp [List.count_eq_zero_of_not_mem hmem]
  · have hzero : (days.map fun d' => (shifts.map fun s' =>
        if d' = d then (if x n d' s' then nurses.count n else 0) else 0).sum).sum = 0 :=
      sum_map_zero (fun d' hd' => sum_map_zero (fun s' _ => by
        rw [if_neg fun h : d' = d => hdm (h ▸ hd')]))
    simp [hzero]

theorem packAssignments_mem {nurses days shifts : List String} {x : XFun}
    {a : Assignment} (h : a ∈ packAssignments nurses days shifts x) :
    a.nurse ∈ nurses ∧ a.day ∈ days ∧ a.shift ∈ shifts ∧
      x a.nurse a.day a.shift = true := by
  unfold packAssignments at h
  simp only [List.mem_flatMap, List.mem_map, List.mem_filter] at h
  obtain ⟨d, hd, s, hs, n, ⟨hn, hx⟩, rfl⟩ := h
  exact ⟨hn, hd, hs, hx⟩

/-! ### Heuristic lemmas -/

theorem scanPick_spec (d : String) (elig : String → Bool) (limit : Nat) :
    ∀ (ns chosen : List String) (used : List (String × String)),
      ∃ delta : List String,
        (scanPick d elig limit ns chosen used).1 = chosen ++ delta ∧
        (scanPick d elig limit ns chosen used).2
          = delta.reverse.map (fun n => (n, d)) ++ used ∧
        delta.Nodup ∧
        ∀ n ∈ delta, elig n = true ∧ (n, d) ∉ used := by
  intro ns
  induction ns with
  | nil =>
    intro chosen used
    exact ⟨[], by simp [scanPick], by simp [scanPick], List.nodup_nil, by simp⟩
  | cons n ns ih =>
    intro chosen used
    by_cases hl : limit ≤ chosen.length
    · refine ⟨[], ?_, ?_, List.nodup_nil, by simp⟩
      · simp [scanPick, hl]
      · simp [scanPick, hl]
    · by_cases he : (elig n && !used.contains (n, d)) = true
      · obtain ⟨delta, h1, h2, h3, h4⟩ := ih (chosen ++ [n]) ((n, d) :: used)
        have heq : scanPick d elig limit (n :: ns) chosen used
            = scanPick d elig limit ns (chosen ++ [n]) ((n, d) :: used) := by
          simp only [scanPick]
          rw [if_neg hl, if_pos he]
        have helig : elig n = true := ((Bool.and_eq_true _ _).mp he).1
        have hnotused : (n, d) ∉ used := by
          have hb := ((Bool.and_eq_true _ _).mp he).2
          simpa using hb
        refine ⟨n :: delta, ?_, ?_, ?_, ?_⟩
        · rw [heq, h1]
          simp
        · rw [heq, h2]
          simp
        · refine List.nodup_cons.mpr ⟨?_, h3⟩
          intro hmem
          exact (h4 n hmem).2 (List.mem_cons_self _ _)
        · intro m hm
          rcases List.mem_cons.mp hm with rfl | hm'
          · exact ⟨helig, hnotused⟩
          · exact ⟨(h4 m hm').1,
              fun hmem => (h4 m hm').2 (List.mem_cons_of_mem _ hmem)⟩
      · obtain ⟨delta, h1, h2, h3, h4⟩ := ih chosen used
        have heq : scanPick d elig limit (n :: ns) chosen used
            = scanPick d elig limit ns chosen used := by
          simp only [scanPick]
          rw [if_neg hl, if_neg he]
        exact ⟨delta, heq ▸ h1, heq ▸ h2, h3, h4⟩

theorem seniorPass_spec (inst : Inst) (d s : String)
    (used : List (String × String)) :
    (seniorPass inst d s used).2
      = (seniorPass inst d s used).1.reverse.map (fun n => (n, d)) ++ used ∧
    (seniorPass inst d s used).1.Nodup ∧
    ∀ n ∈ (seniorPass inst d s used).1,
      is_avail inst n d s = true ∧ (n, d) ∉ used := by
  unfold seniorPass
  by_cases hneed : 0 < inst.required_skills d s "Senior"
  · rw [if_pos hneed]
    obtain ⟨delta, h1, h2, h3, h4⟩ :=
      scanPick_spec d (fun n => is_avail inst n d s && has_skill inst n "Senior")
        (inst.required_skills d s "Senior") inst.nurses [] used
    rw [h1, h2]
    refine ⟨by simp, by simpa using h3, ?_⟩
    intro n hn
    have hn' : n ∈ delta := by simpa using hn
    obtain ⟨he, hu⟩ := h4 n hn'
    exact ⟨((Bool.and_eq_true _ _).mp he).1, hu⟩
  · rw [if_neg hneed]
    exact ⟨by simp, List.nodup_nil, by simp⟩

theorem fillShift_spec (inst : Inst) (d s : String)
    (used : List (String × String)) :
    (fillShift inst d s used).2
      = (fillShift inst d s used).1.reverse.map (fun n => (n, d)) ++ used ∧
    (fillShift inst d s used).1.Nodup ∧
    ∀ n ∈ (fillShift inst d s used).1,
      is_avail inst n d s = true ∧ (n, d) ∉ used := by
  obtain ⟨hu1, hnd1, hprop1⟩ := seniorPass_spec inst d s used
  unfold fillShift
  obtain ⟨delta, h1, h2, h3, h4⟩ :=
    scanPick_spec d (fun n => is_avail inst n d s) (inst.demand d s) inst.nurses
      (seniorPass inst d s used).1 (seniorPass inst d s used).2
  rw [hu1] at h4
  rw [h1, h2, hu1]
  refine ⟨?_, ?_, ?_⟩
  · simp [List.reverse_append]
  · rw [List.nodup_append]
    refine ⟨hnd1, h3, ?_⟩
    intro a ha1 ha2
    exact (h4 a ha2).2
      (List.mem_append_left _ (List.mem_map.mpr ⟨a, List.mem_reverse.mpr ha1, rfl⟩))
  · intro n hn
    rcases List.mem_append.mp hn with hn1 | hn2
    · exact hprop1 n hn1
    · exact ⟨(h4 n hn2).1,
        fun hmem => (h4 n hn2).2 (List.mem_append_right _ hmem)⟩

/-- Invariant carried by the heuristic's double loop: every emitted row's
(nurse, day) pair is marked used and was availability-checked, and no
(nurse, day) pair has more than one row. -/
def HInv (inst : Inst) (acc : List Assignment × List (String × String)) : Prop :=
  (∀ a ∈ acc.1,
      (a.nurse, a.day) ∈ acc.2 ∧ is_avail inst a.nurse a.day a.shift = true) ∧
  (∀ n d, acc.1.countP (fun a => a.nurse == n && a.day == d) ≤ 1)

theorem heurStep_inv {inst : Inst} {acc : List Assignment × List (String × String)}
    (h : HInv inst acc) (d s : String) : HInv inst (heurStep inst acc d s) := by
  obtain ⟨hmem, hcnt⟩ := h
  obtain ⟨hu, hnd, hprop⟩ := fillShift_spec inst d s acc.2
  unfold heurStep
  constructor
  · intro a ha
    rcases List.mem_append.mp ha with hold | hnew
    · obtain ⟨hin, hav⟩ := hmem a hold
      refine ⟨?_, hav⟩
      rw [hu]
      exact List.mem_append_right _ hin
    · obtain ⟨n, hn, rfl⟩ := List.mem_map.mp hnew
      obtain ⟨hav, _⟩ := hprop n hn
      refine ⟨?_, by simpa using hav⟩
      rw [hu]
      exact List.mem_append_left _
        (List.mem_map.mpr ⟨n, List.mem_reverse.mpr hn, rfl⟩)
  · intro n₀ d₀
    rw [List.countP_append]
    have hnewc : ((fillShift inst d s acc.2).1.map
        (fun n => ({ day := d, shift := s, nurse := n } : Assignment))).countP
          (fun a => a.nurse == n₀ && a.day == d₀)
        = if d = d₀ then
            (fillShift inst d s acc.2).1.countP (fun n => n == n₀)
          else 0 := by
      rw [List.countP_map]
      by_cases hdd : d = d₀
      · rw [if_pos hdd]
        apply List.countP_congr
        intro n _
        simp [Function.comp_def, hdd]
      · rw [if_neg hdd]
        have : ((fun a : Assignment => a.nurse == n₀ && a.day == d₀) ∘
            fun n => ({ day := d, shift := s, nurse := n } : Assignment))
            = fun _ => false := by
          funext n
          simp [Function.comp_def, hdd]
        rw [this]
        simp
    rw [hnewc]
    by_cases hdd : d = d₀
    · rw [if_pos hdd]
      by_cases hn₀ : n₀ ∈ (fillShift inst d s acc.2).1
      · have hle1 : (fillShift inst d s acc.2).1.countP (fun n => n == n₀) ≤ 1 := by
          have : (fillShift inst d s acc.2).1.countP (fun n => n == n₀)
              = (fillShift inst d s acc.2).1.count n₀ := rfl
          rw [this]
          exact List.nodup_iff_count_le_one.mp hnd n₀
        have hold0 : acc.1.countP (fun a => a.nurse == n₀ && a.day == d₀) = 0 := by
          by_contra h0
          obtain ⟨a, hain, hpa⟩ :=
            List.countP_pos_iff.mp (Nat.pos_of_ne_zero h0)
          have hpa' : a.nurse = n₀ ∧ a.day = d₀ := by simpa using hpa
          have hused : (a.nurse, a.day) ∈ acc.2 := (hmem a hain).1
          rw [hpa'.1, hpa'.2, ← hdd] at hused
          exact (hprop n₀ hn₀).2 hused
        omega
      · have : (fillShift inst d s acc.2).1.countP (fun n => n == n₀) = 0 := by
          have heq : (fillShift inst d s acc.2).1.countP (fun n => n == n₀)
              = (fillShift inst d s acc.2).1.count n₀ := rfl
          rw [heq]
          exact List.count_eq_zero_of_not_mem hn₀
        rw [this]
        simpa using hcnt n₀ d₀
    · rw [if_neg hdd]
      simpa using hcnt n₀ d₀

theorem foldl_preserve {α β : Type} {P : α → Prop} {f : α → β → α} {l : List β}
    (hstep : ∀ acc b, P acc → P (f acc b)) :
    ∀ {init : α}, P init → P (l.foldl f init) := by
  induction l with
  | nil =>
    intro init h
    simpa using h
  | cons b l ih =>
    intro init h
    rw [List.foldl_cons]
    exact ih (hstep init b h)

theorem heurLoop_inv (inst : Inst) : HInv inst (heurLoop inst) := by
  unfold heurLoop
  apply foldl_preserve
  · intro acc dd hacc
    apply foldl_preserve
    · intro acc2 ss h2
      exact heurStep_inv h2 dd ss
    · exact hacc
  · constructor
    · intro a ha
      simp at ha
    · intro n d
      simp

/-! ### Week-indexer lemmas -/

theorem filter_ne_replicate_same {α : Type} [DecidableEq α] (k : Nat) (v : α) :
    (List.replicate k v).filter (fun b => decide (b ≠ v)) = [] :=
  List.filter_eq_nil_iff.mpr fun a ha => by
    simp [List.eq_of_mem_replicate ha]

theorem filter_ne_replicate_other {α : Type} [DecidableEq α] (k : Nat) {v w : α}
    (h : v ≠ w) :
    (List.replicate k v).filter (fun b => decide (b ≠ w)) = List.replicate k v :=
  List.filter_eq_self.mpr fun a ha => by
    simp [List.eq_of_mem_replicate ha, h]

theorem pyDedup_two_runs {a b w w' : Nat} (ha : 1 ≤ a) (hb : 1 ≤ b)
    (hne : w ≠ w') :
    pyDedup (List.replicate a w ++ List.replicate b w') = [w, w'] := by
  obtain ⟨a', rfl⟩ : ∃ a', a = a' + 1 := ⟨a - 1, by omega⟩
  obtain ⟨b', rfl⟩ : ∃ b', b = b' + 1 := ⟨b - 1, by omega⟩
  rw [List.replicate_succ, List.cons_append, pyDedup, List.filter_append,
    filter_ne_replicate_same, List.nil_append,
    filter_ne_replicate_other _ (Ne.symm hne),
    List.replicate_succ, pyDedup, filter_ne_replicate_same, pyDedup]

/-- The ISO branch of `get_week_index_map` on a horizon whose ISO week
numbers form exactly two runs: the resulting indices are exactly two runs
of 0 then 1 (first-appearance order). -/
theorem week_map_iso_two_runs {days : List String} {a b w w' : Nat}
    (ha : 1 ≤ a) (hb : 1 ≤ b) (hne : w ≠ w')
    (hiso : days.all is_iso_date = true)
    (hruns : days.map isoWeekOf = List.replicate a w ++ List.replicate b w') :
    (get_week_index_map days none).map Prod.snd
      = List.replicate a 0 ++ List.replicate b 1 := by
  unfold get_week_index_map
  rw [if_pos hiso]
  have hmm : (days.map fun d => ((d, (pyDedup (days.map isoWeekOf)).indexOf (isoWeekOf d)) : String × Nat)).map Prod.snd
      = (days.map isoWeekOf).map fun v => (pyDedup (days.map isoWeekOf)).indexOf v := by
    rw [List.map_map, List.map_map]
    rfl
  rw [hmm, hruns, pyDedup_two_runs ha hb hne]
  rw [List.map_append, List.map_replicate, List.map_replicate]
  rw [List.indexOf_cons_self]
  rw [List.indexOf_cons_ne _ hne, List.indexOf_cons_self]

/-- The fallback branch of `get_week_index_map` on 14 non-ISO labels:
indices are position div 7, i.e. seven 0s then seven 1s. -/
theorem week_map_fallback_14 {days : List String}
    (hlen : days.length = 14) (hiso : days.all is_iso_date = false) :
    (get_week_index_map days none).map Prod.snd
      = List.replicate 7 0 ++ List.replicate 7 1 := by
  unfold get_week_index_map
  rw [if_neg (by simp [hiso])]
  have hmm : (days.enum.map fun p => ((p.2, p.1 / 7) : String × Nat)).map Prod.snd
      = (days.enum.map Prod.fst).map fun i => i / 7 := by
    rw [List.map_map, List.map_map]
    rfl
  rw [hmm, List.enum_map_fst, hlen]
  decide

/-! ### Claims -/

/-- Claim C2 (amended): for every request and every pair of solver
outcomes, the cascade returns exactly one response and its status is one of
the five values `OPTIMAL`, `FEASIBLE`, `RELAXED_OPTIMAL`,
`RELAXED_FEASIBLE`, `HEURISTIC` — the strict tier's statuses carry no
`STRICT_` prefix (app.py line 260). -/
theorem C2_solve_status_values (inst : Inst) (sr : CpStatus) (ss : Sol)
    (rr : CpStatus) (rs : RSol) :
    (solve inst sr ss rr rs).status ∈
      ["OPTIMAL", "FEASIBLE", "RELAXED_OPTIMAL", "RELAXED_FEASIBLE", "HEURISTIC"] := by
  unfold solve pack_strict pack_relaxed heurResponse
  by_cases h1 : sr = CpStatus.OPTIMAL ∨ sr = CpStatus.FEASIBLE
  · rw [if_pos h1]
    by_cases h2 : sr = CpStatus.OPTIMAL <;> simp [h2]
  · rw [if_neg h1]
    by_cases h2 : rr = CpStatus.OPTIMAL ∨ rr = CpStatus.FEASIBLE
    · rw [if_pos h2]
      by_cases h3 : rr = CpStatus.OPTIMAL <;> simp [h3]
    · rw [if_neg h2]
      simp

/-- Claim C2 counterexample: a run in which the strict tier succeeds with
an optimal solution reports status `"OPTIMAL"`, which is none of the five
values listed by the claim (in particular not `"STRICT_OPTIMAL"`). -/
theorem C2_counterexample :
    (solve instJunior CpStatus.OPTIMAL sol0 CpStatus.UNKNOWN rsol0).status
        = "OPTIMAL" ∧
    (solve instJunior CpStatus.OPTIMAL sol0 CpStatus.UNKNOWN rsol0).status ∉
      ["STRICT_OPTIMAL", "STRICT_FEASIBLE", "RELAXED_OPTIMAL",
        "RELAXED_FEASIBLE", "HEURISTIC"] := by
  decide

/-- Claim C9: week bucketing.  (1) With no explicit map, on an all-ISO-date
horizon whose ISO week numbers form exactly two runs of two distinct values
(which is the shape taken by 14 consecutive dates spanning exactly two ISO
calendar weeks), the indices are exactly two contiguous runs of 0 then 1,
in order of first appearance.  (2) On 14 labels that do not all parse as
ISO dates, the fallback yields index 0 for the first 7 days and 1 for the
next 7. -/
theorem C9_week_bucketing :
    (∀ (days : List String) (a b w w' : Nat), 1 ≤ a → 1 ≤ b → a + b = 14 →
        w ≠ w' →
        days.all is_iso_date = true →
        days.map isoWeekOf = List.replicate a w ++ List.replicate b w' →
        (get_week_index_map days none).map Prod.snd
          = List.replicate a 0 ++ List.replicate b 1) ∧
    (∀ days : List String, days.length = 14 → days.all is_iso_date = false →
        (get_week_index_map days none).map Prod.snd
          = List.replicate 7 0 ++ List.replicate 7 1) :=
  ⟨fun _ _ _ _ _ ha hb _ hne hiso hruns =>
      week_map_iso_two_runs ha hb hne hiso hruns,
    fun _ hlen hiso => week_map_fallback_14 hlen hiso⟩

/-- Claim C9 witness: the two-week January 2024 horizon (ISO weeks 1 then
2) and 14 opaque labels, both evaluated on the real `get_week_index_map`. -/
theorem C9_witness :
    (get_week_index_map isoDays14 none).map Prod.snd
        = List.replicate 7 0 ++ List.replicate 7 1 ∧
    (get_week_index_map labelDays14 none).map Prod.snd
        = List.replicate 7 0 ++ List.replicate 7 1 :=
  ⟨C9_week_bucketing.1 isoDays14 7 7 1 2 (by decide) (by decide) (by decide)
      (by decide) (by decide) (by decide),
    C9_week_bucketing.2 labelDays14 (by decide) (by decide)⟩

/-- Claim C10: in the heuristic tier, when the required Senior count (2)
exceeds demand (1) on a (day, shift), the Senior-filling pass emits more
assignments than the demand (here 2 > 1), and the surplus is never
reported: understaffing is `max(0, demand - assigned)`, so the
understaffed list is empty. -/
theorem C10_heuristic_overfill :
    (solve instOverfill CpStatus.INFEASIBLE sol0 CpStatus.INFEASIBLE rsol0).status
        = "HEURISTIC" ∧
    instOverfill.required_skills "D1" "S1" "Senior" = 2 ∧
    instOverfill.demand "D1" "S1" = 1 ∧
    (solve instOverfill CpStatus.INFEASIBLE sol0 CpStatus.INFEASIBLE rsol0).assignments.countP
        (fun a => a.day == "D1" && a.shift == "S1") = 2 ∧
    (solve instOverfill CpStatus.INFEASIBLE sol0 CpStatus.INFEASIBLE rsol0).understaffed
        = [] := by
  decide

/-- Claim C4 counterexample: `instJunior` requires one "Junior" on its only
(day, shift), yet the all-zero assignment satisfies every strict-model
constraint — the strict model enforces no requirement for skill labels
other than "Senior". -/
theorem C4_counterexample :
    strictOK instJunior sol0 = true ∧
    ¬ spec_skillCoverage instJunior sol0.x ["Junior"] := by
  decide

/-- Claim C4 (amended): in the strict model the skill-coverage rule is a
hard constraint only for the literal label "Senior"; requirements under any
other label in the SkillRequirement table are ignored. -/
theorem C4_senior_only_hard (inst : Inst) (sol : Sol)
    (h : strictOK inst sol = true) :
    spec_skillCoverage inst sol.x ["Senior"] := by
  intro d hd s hs skill hskill hpos
  have hsk : skill = "Senior" := by simpa using hskill
  subst hsk
  exact seniorOK_spec (strictOK_parts h).2.2.2.2.2.2.2 d hd s hs hpos

/-- Claim C4 witness: a strict-feasible solution of `instSenior` meets its
Senior requirement. -/
theorem C4_witness : spec_skillCoverage instSenior solSenior.x ["Senior"] :=
  C4_senior_only_hard instSenior solSenior (by decide)

/-- Claim C5 counterexample: with one nurse and demand 3 on the only
(day, shift), the coverage equality together with the `under` variable's
declared upper bound `len(nurses)` (app.py line 155) is unsatisfiable on
its own — and the whole strict model with it.  Slack does not absorb
demand beyond `2 * len(nurses)`. -/
theorem C5_counterexample :
    (¬ ∃ (x : XFun) (under : String → String → Nat),
        covOK instBigDemand x under = true) ∧
    (¬ ∃ sol : Sol, strictOK instBigDemand sol = true) := by
  have key : ∀ (x : XFun) (under : String → String → Nat),
      covOK instBigDemand x under = true → False := by
    intro x under h
    obtain ⟨hdom, hcov⟩ := covOK_spec h "D1" (by decide) "S1" (by decide)
    have hle : countAssigned instBigDemand.nurses x "D1" "S1"
        ≤ instBigDemand.nurses.length :=
      List.length_filter_le _ _
    have hdemand : instBigDemand.demand "D1" "S1" = 3 := rfl
    have hlen : instBigDemand.nurses.length = 1 := rfl
    omega
  constructor
  · rintro ⟨x, under, h⟩
    exact key x under h
  · rintro ⟨sol, h⟩
    exact key sol.x sol.under (strictOK_parts h).1

/-- Claim C5 (amended): the coverage equation alone never makes the model
infeasible **provided** every demand is at most `2 * len(nurses)`: the
assigned count can reach `len(nurses)` and the understaff slack is capped
at `len(nurses)`, so any demand up to their sum is absorbed (demand beyond
that is unsatisfiable, see the counterexample). -/
theorem C5_coverage_satisfiable (inst : Inst)
    (h : ∀ d ∈ inst.days, ∀ s ∈ inst.shifts,
        inst.demand d s ≤ 2 * inst.nurses.length) :
    ∃ (x : XFun) (under : String → String → Nat),
      covOK inst x under = true := by
  refine ⟨fun _ d s => decide (inst.nurses.length < inst.demand d s),
    fun d s =>
      if inst.nurses.length < inst.demand d s
      then inst.demand d s - inst.nurses.length
      else inst.demand d s, ?_⟩
  unfold covOK
  rw [List.all_eq_true]
  intro d hd
  rw [List.all_eq_true]
  intro s hs
  have hds := h d hd s hs
  simp only [Bool.and_eq_true, decide_eq_true_eq, beq_iff_eq]
  by_cases hc : inst.nurses.length < inst.demand d s
  · have hcount : countAssigned inst.nurses
        (fun _ d' s' => decide (inst.nurses.length < inst.demand d' s')) d s
        = inst.nurses.length := by
      unfold countAssigned
      rw [List.filter_eq_self.mpr (fun n _ => decide_eq_true hc)]
    rw [if_pos hc, hcount]
    omega
  · have hcount : countAssigned inst.nurses
        (fun _ d' s' => decide (inst.nurses.length < inst.demand d' s')) d s
        = 0 := by
      unfold countAssigned
      rw [List.filter_eq_nil_iff.mpr (fun n _ => by simp [hc])]
      rfl
    rw [if_neg hc, hcount]
    omega

/-- Claim C5 witness: the amended statement applied to `instSenior`, whose
demands are all within `2 * len(nurses)`. -/
theorem C5_witness :
    ∃ (x : XFun) (under : String → String → Nat),
      covOK instSenior x under = true :=
  C5_coverage_satisfiable instSenior (by decide)

/-- Claim C8: on the 1-nurse / 2-day / {Night, Morning} scenario with
demand 1 Night on day 1 and 1 Morning on day 2, the strict model is
feasible (so the strict tier succeeds whenever the solver is complete on
this 4-variable model), and every strict-feasible solution packs total
understaffing of at least 1 — the hard rules prevent the single nurse from
covering both shifts. -/
theorem C8_adjacency_scenario :
    (∃ sol : Sol, strictOK instC8 sol = true) ∧
    (∀ sol : Sol, strictOK instC8 sol = true →
      1 ≤ totalMissing (pack_strict instC8 CpStatus.OPTIMAL sol)) := by
  constructor
  · exact ⟨solC8, by decide⟩
  · intro sol h
    obtain ⟨hcov, _, _, _, _, _, hrest, _⟩ := strictOK_parts h
    have hgroups : groupWeeks instC8.days (weekIdx instC8) = [(0, ["D1", "D2"])] := by
      decide
    have hrest1 := restOK_spec hrest "N1" (by decide) (0, ["D1", "D2"])
      (by rw [hgroups]; exact List.mem_singleton.mpr rfl)
    have hf : (instC8.shifts.filter fun s => sol.x "N1" "D1" s).length = 0 := by
      simp only [List.map_cons, List.map_nil, List.sum_cons, List.sum_nil,
        List.length_cons, List.length_nil] at hrest1
      omega
    have hxf : sol.x "N1" "D1" "Night" = false := by
      have hnil := List.length_eq_zero.mp hf
      have hnm := List.filter_eq_nil_iff.mp hnil "Night" (by decide)
      simpa using hnm
    have hcount : countAssigned instC8.nurses sol.x "D1" "Night" = 0 := by
      show (instC8.nurses.filter fun n => sol.x n "D1" "Night").length = 0
      rw [show instC8.nurses = ["N1"] from rfl]
      simp [hxf]
    have hunder : sol.under "D1" "Night" = 1 := by
      have hc := (covOK_spec hcov "D1" (by decide) "Night" (by decide)).2
      rw [hcount, show instC8.demand "D1" "Night" = 1 from rfl] at hc
      omega
    have hmem : ({ day := "D1", shift := "Night", missing := 1 } : UnderstaffItem)
        ∈ packUnderstaffed instC8.days instC8.shifts sol.under := by
      unfold packUnderstaffed
      rw [List.mem_flatMap]
      refine ⟨"D1", by decide, ?_⟩
      rw [List.mem_flatMap]
      refine ⟨"Night", by decide, ?_⟩
      rw [if_pos (by rw [hunder]; exact one_ne_zero), hunder]
      exact List.mem_singleton.mpr rfl
    have h1mem : 1 ∈ ((pack_strict instC8 CpStatus.OPTIMAL sol).understaffed.map
        fun u => u.missing) := by
      show 1 ∈ ((packUnderstaffed instC8.days instC8.shifts sol.under).map
        fun u => u.missing)
      exact List.mem_map.mpr ⟨_, hmem, rfl⟩
    exact List.le_sum_of_mem h1mem

/-- Claim C8 witness: the all-slack solution is strict-feasible on the
scenario and packs understaffing at least 1. -/
theorem C8_witness :
    strictOK instC8 solC8 = true ∧
    1 ≤ totalMissing (pack_strict instC8 CpStatus.OPTIMAL solC8) :=
  ⟨by decide, C8_adjacency_scenario.2 solC8 (by decide)⟩

/-- Claim C3: whichever tier produces the response, the stats list carries
exactly one `NurseStats` entry per nurse of the input list, in input
order — never empty, never a strict subset (nurse identifiers are unique
per the data model, hence the `Nodup` hypothesis). -/
theorem C3_stats_per_nurse (inst : Inst) (sr : CpStatus) (ss : Sol)
    (rr : CpStatus) (rs : RSol) (hn : inst.nurses.Nodup) :
    (solve inst sr ss rr rs).nurse_stats.map (fun st => st.nurse)
      = inst.nurses := by
  unfold solve
  by_cases h1 : sr = CpStatus.OPTIMAL ∨ sr = CpStatus.FEASIBLE
  · rw [if_pos h1]
    show (packStats inst ss.x ss.over).map (fun st => st.nurse) = inst.nurses
    simp [packStats, List.map_map, Function.comp_def]
  · rw [if_neg h1]
    by_cases h2 : rr = CpStatus.OPTIMAL ∨ rr = CpStatus.FEASIBLE
    · rw [if_pos h2]
      show (packStats inst rs.x rs.over).map (fun st => st.nurse) = inst.nurses
      simp [packStats, List.map_map, Function.comp_def]
    · rw [if_neg h2]
      show (heurStats inst.nurses (heurAssignments inst)).map (fun st => st.nurse)
        = inst.nurses
      simp only [heurStats, List.map_map]
      have : ((fun st : NurseStats => st.nurse) ∘ fun n =>
          ({ nurse := n
             assigned_shifts := (heurAssignments inst).countP fun a => a.nurse == n
             overtime := 0
             nights := (heurAssignments inst).countP
               fun a => a.nurse == n && shift_eq a.shift "night" } : NurseStats))
          = fun n => n := rfl
      rw [this, List.map_id', pyDedup_eq_self hn]

/-- Claim C3 witness. -/
theorem C3_witness :
    (solve instJunior CpStatus.UNKNOWN sol0 CpStatus.UNKNOWN rsol0).nurse_stats.map
        (fun st => st.nurse) = instJunior.nurses :=
  C3_stats_per_nurse instJunior CpStatus.UNKNOWN sol0 CpStatus.UNKNOWN rsol0
    (by decide)

/-- Claim C1: whenever a model tier (strict or relaxed) succeeds, the
packed result satisfies, for every (day, shift), assigned count plus the
reported understaffing slack (0 when no row is emitted) equals the demand
exactly. -/
theorem C1_coverage_invariant (inst : Inst) (sr : CpStatus) (ss : Sol)
    (rr : CpStatus) (rs : RSol)
    (hd : inst.days.Nodup) (hs : inst.shifts.Nodup)
    (hstrict : sr = CpStatus.OPTIMAL ∨ sr = CpStatus.FEASIBLE →
      strictOK inst ss = true)
    (hrelax : rr = CpStatus.OPTIMAL ∨ rr = CpStatus.FEASIBLE →
      relaxedOK inst rs = true)
    (htier : (sr = CpStatus.OPTIMAL ∨ sr = CpStatus.FEASIBLE) ∨
      (rr = CpStatus.OPTIMAL ∨ rr = CpStatus.FEASIBLE))
    (d s : String) (hdm : d ∈ inst.days) (hsm : s ∈ inst.shifts) :
    (solve inst sr ss rr rs).assignments.countP
        (fun a => a.day == d && a.shift == s)
      + reportedMissing (solve inst sr ss rr rs) d s = inst.demand d s := by
  unfold solve
  by_cases h1 : sr = CpStatus.OPTIMAL ∨ sr = CpStatus.FEASIBLE
  · rw [if_pos h1]
    have hcov := (strictOK_parts (hstrict h1)).1
    show (packAssignments inst.nurses inst.days inst.shifts ss.x).countP
        (fun a => a.day == d && a.shift == s)
      + reportedMissing (pack_strict inst sr ss) d s = inst.demand d s
    unfold reportedMissing
    show _ + (((packUnderstaffed inst.days inst.shifts ss.under).filter
        fun u => u.day == d && u.shift == s).map (fun u => u.missing)).sum = _
    rw [packAssignments_countP_pair _ _ _ _ hd hs hdm hsm,
      packUnderstaffed_reported _ _ _ hd hs hdm hsm]
    exact (covOK_spec hcov d hdm s hsm).2
  · rw [if_neg h1]
    have h2 := htier.resolve_left h1
    rw [if_pos h2]
    have hcov := (relaxedOK_parts (hrelax h2)).1
    show (packAssignments inst.nurses inst.days inst.shifts rs.x).countP
        (fun a => a.day == d && a.shift == s)
      + reportedMissing (pack_relaxed inst rr rs) d s = inst.demand d s
    unfold reportedMissing
    show _ + (((packUnderstaffed inst.days inst.shifts rs.under).filter
        fun u => u.day == d && u.shift == s).map (fun u => u.missing)).sum = _
    rw [packAssignments_countP_pair _ _ _ _ hd hs hdm hsm,
      packUnderstaffed_reported _ _ _ hd hs hdm hsm]
    exact (covOK_spec hcov d hdm s hsm).2

/-- Claim C1 witness: the strict tier on `instSenior` with its feasible
solution, checked at day "D1", shift "S1". -/
theorem C1_witness :
    (solve instSenior CpStatus.OPTIMAL solSenior CpStatus.UNKNOWN rsol0).assignments.countP
        (fun a => a.day == "D1" && a.shift == "S1")
      + reportedMissing
          (solve instSenior CpStatus.OPTIMAL solSenior CpStatus.UNKNOWN rsol0)
          "D1" "S1"
      = instSenior.demand "D1" "S1" :=
  C1_coverage_invariant instSenior CpStatus.OPTIMAL solSenior CpStatus.UNKNOWN rsol0
    (by decide) (by decide) (fun _ => by decide)
    (fun h => absurd h (by decide)) (Or.inl (Or.inl rfl))
    "D1" "S1" (by decide) (by decide)

/-- Claim C6: in every response — strict, relaxed or heuristic — no nurse
has two assignments on the same day. -/
theorem C6_one_shift_per_day (inst : Inst) (sr : CpStatus) (ss : Sol)
    (rr : CpStatus) (rs : RSol)
    (hn : inst.nurses.Nodup) (hd : inst.days.Nodup)
    (hstrict : sr = CpStatus.OPTIMAL ∨ sr = CpStatus.FEASIBLE →
      strictOK inst ss = true)
    (hrelax : rr = CpStatus.OPTIMAL ∨ rr = CpStatus.FEASIBLE →
      relaxedOK inst rs = true)
    (n d : String) :
    (solve inst sr ss rr rs).assignments.countP
      (fun a => a.nurse == n && a.day == d) ≤ 1 := by
  unfold solve
  by_cases h1 : sr = CpStatus.OPTIMAL ∨ sr = CpStatus.FEASIBLE
  · rw [if_pos h1]
    have hone := (strictOK_parts (hstrict h1)).2.1
    show (packAssignments inst.nurses inst.days inst.shifts ss.x).countP
      (fun a => a.nurse == n && a.day == d) ≤ 1
    exact packAssignments_onePerDay _ _ _ _ hn hd (onePerDayOK_spec hone) n d
  · rw [if_neg h1]
    by_cases h2 : rr = CpStatus.OPTIMAL ∨ rr = CpStatus.FEASIBLE
    · rw [if_pos h2]
      have hone := (relaxedOK_parts (hrelax h2)).2.1
      show (packAssignments inst.nurses inst.days inst.shifts rs.x).countP
        (fun a => a.nurse == n && a.day == d) ≤ 1
      exact packAssignments_onePerDay _ _ _ _ hn hd (onePerDayOK_spec hone) n d
    · rw [if_neg h2]
      exact (heurLoop_inv inst).2 n d

/-- Claim C6 witness: heuristic tier on `instOverfill`, nurse "A",
day "D1". -/
theorem C6_witness :
    (solve instOverfill CpStatus.UNKNOWN sol0 CpStatus.UNKNOWN rsol0).assignments.countP
      (fun a => a.nurse == "A" && a.day == "D1") ≤ 1 :=
  C6_one_shift_per_day instOverfill CpStatus.UNKNOWN sol0 CpStatus.UNKNOWN rsol0
    (by decide) (by decide) (fun h => absurd h (by decide))
    (fun h => absurd h (by decide)) "A" "D1"

/-- Claim C7: if the availability table stores 0 for (nurse, day, shift),
no assignment with that day, shift and nurse ever appears, in any tier. -/
theorem C7_availability (inst : Inst) (sr : CpStatus) (ss : Sol)
    (rr : CpStatus) (rs : RSol)
    (f : String → String → String → Option Nat) (n d s : String)
    (hav : inst.avail = some f) (hzero : f n d s = some 0)
    (hstrict : sr = CpStatus.OPTIMAL ∨ sr = CpStatus.FEASIBLE →
      strictOK inst ss = true)
    (hrelax : rr = CpStatus.OPTIMAL ∨ rr = CpStatus.FEASIBLE →
      relaxedOK inst rs = true) :
    ∀ a ∈ (solve inst sr ss rr rs).assignments,
      ¬(a.day = d ∧ a.shift = s ∧ a.nurse = n) := by
  have hunavail : is_available inst.avail n d s = false := by
    rw [hav]
    show (match f n d s with
      | none => true
      | some v => v != 0) = false
    rw [hzero]
    rfl
  intro a ha hcontra
  obtain ⟨hd', hs', hn'⟩ := hcontra
  unfold solve at ha
  by_cases h1 : sr = CpStatus.OPTIMAL ∨ sr = CpStatus.FEASIBLE
  · rw [if_pos h1] at ha
    have havOK := (strictOK_parts (hstrict h1)).2.2.1
    have hm := packAssignments_mem
      (show a ∈ packAssignments inst.nurses inst.days inst.shifts ss.x from ha)
    have hxz := availOK_spec havOK a.nurse hm.1 a.day hm.2.1 a.shift hm.2.2.1
      (by rw [hn', hd', hs']; exact hunavail)
    rw [hm.2.2.2] at hxz
    exact Bool.true_eq_false.mp hxz
  · rw [if_neg h1] at ha
    by_cases h2 : rr = CpStatus.OPTIMAL ∨ rr = CpStatus.FEASIBLE
    · rw [if_pos h2] at ha
      have havOK := (relaxedOK_parts (hrelax h2)).2.2.1
      have hm := packAssignments_mem
        (show a ∈ packAssignments inst.nurses inst.days inst.shifts rs.x from ha)
      have hxz := availOK_spec havOK a.nurse hm.1 a.day hm.2.1 a.shift hm.2.2.1
        (by rw [hn', hd', hs']; exact hunavail)
      rw [hm.2.2.2] at hxz
      exact Bool.true_eq_false.mp hxz
    · rw [if_neg h2] at ha
      have hinv := (heurLoop_inv inst).1 a
        (show a ∈ (heurLoop inst).1 from ha)
      have havail := hinv.2
      rw [hn', hd', hs'] at havail
      unfold is_avail at havail
      rw [hunavail] at havail
      exact Bool.false_ne_true havail

/-- Claim C7 witness: nurse "A" is stored unavailable in `instUnavail`, so
the triple ("D1", "S1", "A") is not among the heuristic assignments. -/
theorem C7_witness :
    ({ day := "D1", shift := "S1", nurse := "A" } : Assignment)
      ∉ (solve instUnavail CpStatus.UNKNOWN sol0 CpStatus.UNKNOWN rsol0).assignments :=
  fun hmem =>
    C7_availability instUnavail CpStatus.UNKNOWN sol0 CpStatus.UNKNOWN rsol0
      (fun nn _ _ => if nn == "A" then some 0 else none) "A" "D1" "S1"
      rfl rfl (fun h => absurd h (by decide)) (fun h => absurd h (by decide))
      _ hmem ⟨rfl, rfl, rfl⟩

end NSP
